import Mathlib

/-!
# Sprig board support: buttons, colours, text grid and sprites

A shallow embedding of `src/machine/board_sprig.go`.

Conventions of the embedding:

* Go `uint8`, `uint16` and `byte` values are natural numbers; every operation
  that can leave the range is followed by an explicit `% 256` or `% 65536`.
* Go `int` is 32 bits wide on the RP2040 of the board; `int` values are
  integers and `++` goes through `wrapInt32`.
* Go fixed-size arrays are lists; a write is `List.set`, a read is
  `List.getD`, and every index expression is bounds-checked against the
  declared array length before it is used, as the Go runtime does.
* A run-time panic is `Except.error`.
* Package-level variables are passed in and returned explicitly.
-/

namespace Sprig

/-! ## Machine integers -/

/-- Subtraction of two `uint8` values, wrapping modulo 256. -/
def u8sub (a b : Nat) : Nat := (((a : Int) - (b : Int)) % 256).toNat

/-- Two's complement wrap of an integer into the 32-bit `int` range. -/
def wrapInt32 (v : Int) : Int := (v + 2147483648) % 4294967296 - 2147483648

/-- Run-time panics the embedded code can raise. -/
inductive Panic where
  | indexOutOfRange
  | sliceBoundsOutOfRange
  | nilMapAssignment
deriving DecidableEq, Repr

/-! ## Buttons -/

/-- Source: `const HISTORY_LEN = 64`. -/
def HISTORY_LEN : Nat := 64

/-- Source: `type ButtonState struct`; `History` is `[HISTORY_LEN]bool`,
`HistoryIdx` is `uint8`, `Pin` is the number of the input line. -/
structure ButtonState where
  History : List Bool
  LastState : Bool
  ReadState : Bool
  HistoryIdx : Nat
  Pin : Nat
deriving DecidableEq, Repr, Inhabited

namespace ButtonState

/-- Source: `func (state *ButtonState) AddState(item bool) bool`.
Returns the receiver after the call together with the result. -/
def AddState (state : ButtonState) (item : Bool) : ButtonState × Bool :=
  if state.HistoryIdx ≥ HISTORY_LEN then
    (state, false)
  else
    ({ state with
        LastState := item
        History := state.History.set state.HistoryIdx item
        HistoryIdx := (state.HistoryIdx + 1) % 256 }, true)

/-- Source: `func (state *ButtonState) AddStateFromPin() bool`; `pinGet` is
`Pin.Get`, the level currently read on an input line. -/
def AddStateFromPin (pinGet : Nat → Bool) (state : ButtonState) : ButtonState × Bool :=
  state.AddState (pinGet state.Pin)

/-- The counter `number` (a `uint8`) of `ClearHistory` after the first `i`
iterations of `for i := 0; i < HISTORY_LEN; i++`. -/
def countLoop (history : List Bool) : Nat → Nat
  | 0 => 0
  | i + 1 =>
    if history.getD i false then (countLoop history i + 1) % 256 else countLoop history i

/-- The constant expression `(5/6)*HISTORY_LEN` of the source: `5/6` divides
two untyped integer constants, so it is integer division. -/
def clearThreshold : Nat := (5 / 6) * HISTORY_LEN

/-- Source: `func (state *ButtonState) ClearHistory() (bool, bool)`.
Returns the receiver after the call and the two results. -/
def ClearHistory (state : ButtonState) : ButtonState × Bool × Bool :=
  if state.HistoryIdx < HISTORY_LEN then
    (state, false, false)
  else
    let state1 := { state with HistoryIdx := 0 }
    let number := countLoop state1.History HISTORY_LEN
    let state2 := { state1 with ReadState := decide (number > clearThreshold) }
    if number > clearThreshold then (state2, true, true) else (state2, true, false)

end ButtonState

/-- Source: `const BUTTON_NUM = 8`. -/
def BUTTON_NUM : Nat := 8

/-- Source: `var BUTTON_PINS = [BUTTON_NUM]Pin{GP5, GP7, GP6, GP8, GP12, GP14, GP13, GP15}`. -/
def BUTTON_PINS : List Nat := [5, 7, 6, 8, 12, 14, 13, 15]

/-- The bank `BUTTON_STATES` as the `init` function of the source leaves it:
`BUTTON_STATES[i] = ButtonState{Pin: pin}`. -/
def initButtonStates : List ButtonState :=
  BUTTON_PINS.map fun pin =>
    { History := List.replicate HISTORY_LEN false
      LastState := false
      ReadState := false
      HistoryIdx := 0
      Pin := pin }

/-- One iteration of the loop of `PollAllButtons`:
`state := BUTTON_STATES[i]; out = state.AddStateFromPin()`.
`BUTTON_STATES` is an array of structs, so `state := BUTTON_STATES[i]` copies
the element into the local variable `state`; the pointer-receiver method then
updates that local, which is dropped at the end of the iteration. The
iteration carries the global array and `out`. -/
def pollStep (pinGet : Nat → Bool) (acc : List ButtonState × Bool) (i : Nat) :
    List ButtonState × Bool :=
  let state := acc.1.getD i default
  let called := state.AddStateFromPin pinGet
  (acc.1, called.2)

/-- Source: `func PollAllButtons() bool`, on the global `BUTTON_STATES`. -/
def PollAllButtons (pinGet : Nat → Bool) (BUTTON_STATES : List ButtonState) :
    List ButtonState × Bool :=
  (List.range BUTTON_NUM).foldl (pollStep pinGet) (BUTTON_STATES, false)

/-- The sequence of `AddState` calls made on one button with the given
samples: the state after the last call and the result of every call. -/
def addStates (state : ButtonState) : List Bool → ButtonState × List Bool
  | [] => (state, [])
  | item :: rest =>
    let called := state.AddState item
    let later := addStates called.1 rest
    (later.1, called.2 :: later.2)

/-! ## Colours and positions -/

/-- Source: `type Color uint16`. -/
abbrev Color := Nat

/-- The expression `uint16(float64((float64(v) / 255.0) * m))` of `Color16`
for a `uint8` value `v` and `m` one of `31.0`, `63.0`. The conversion to
`uint16` truncates, and for every `v` in `0..255` the double-precision value
truncates to the integer quotient `v * m / 255` (the product is exact at the
four inputs 0, 85, 170, 255 where the quotient is an integer, and elsewhere
the rounding error is far below the distance to the next integer). -/
def scaleChannel (v m : Nat) : Nat := v * m / 255

/-- Source: `func Color16(r uint8, g uint8, b uint8) Color`. -/
def Color16 (r _g b : Nat) : Color :=
  let r16 := scaleChannel r 31
  let g16 := scaleChannel r 63
  let b16 := scaleChannel b 31
  (((r16 &&& 0b11111000) <<< 8) % 65536) ||| (((g16 &&& 0b11111100) <<< 3) % 65536)
    ||| (b16 >>> 3)

/-- Source: `type Position uint16`. -/
abbrev Position := Nat

/-- Source: `func CreatePosition(x uint8, y uint8) Position`, the expression
`Position(y | (x << 8))`. Both operands are `uint8`, so the shift and the
or are computed in 8 bits before the conversion to `Position`. -/
def CreatePosition (x y : Nat) : Position := (y ||| ((x <<< 8) % 256)) % 256

/-- Source: `func (pos Position) GetX() uint8`. -/
def Position.GetX (pos : Position) : Nat := ((pos >>> 8) &&& 0xFF) % 256

/-- Source: `func (pos Position) GetY() uint8`. -/
def Position.GetY (pos : Position) : Nat := (pos &&& 0xFF) % 256

/-! ## Display transport -/

/-- What reaches the panel through the three transport functions. -/
inductive Event where
  | fillStart (pos_x_start pos_x_end pos_y_start pos_y_end : Nat)
  | fillSend (pixel : Color)
  | fillFinish
deriving DecidableEq, Repr

/-- The display: the flag `TFT_initialized` and everything pushed so far,
oldest first. -/
structure Display where
  TFT_initialized : Bool
  pushed : List Event
deriving DecidableEq, Repr

/-- Source: `func TFT_fill_start(pos_x_start, pos_x_end, pos_y_start, pos_y_end uint16)`. -/
def TFT_fill_start (d : Display) (pos_x_start pos_x_end pos_y_start pos_y_end : Nat) : Display :=
  if !d.TFT_initialized then d
  else { d with pushed := d.pushed ++ [Event.fillStart pos_x_start pos_x_end pos_y_start pos_y_end] }

/-- Source: `func TFT_fill_send(pixel Color)`. -/
def TFT_fill_send (d : Display) (pixel : Color) : Display :=
  if !d.TFT_initialized then d
  else { d with pushed := d.pushed ++ [Event.fillSend pixel] }

/-- Source: `func TFT_fill_finish()`. -/
def TFT_fill_finish (d : Display) : Display :=
  if !d.TFT_initialized then d
  else { d with pushed := d.pushed ++ [Event.fillFinish] }

/-! ## Text grid -/

/-- Source: `const TEXT_CHARS_MAX_X = 20`. -/
def TEXT_CHARS_MAX_X : Nat := 20

/-- Source: `const TEXT_CHARS_MAX_Y = 16`. -/
def TEXT_CHARS_MAX_Y : Nat := 16

/-- The package-level variables the text functions use: the display, the
three arrays `[TEXT_CHARS_MAX_Y][TEXT_CHARS_MAX_X]`, the cursor and the
background colour. -/
structure TextState where
  display : Display
  text_char : List (List Nat)
  text_color : List (List Color)
  text_set : List (List Bool)
  Text_x : Int
  Text_y : Int
  Background_color : Color
deriving DecidableEq, Repr

/-- Whether `a[y][x]` is inside an array `[TEXT_CHARS_MAX_Y][TEXT_CHARS_MAX_X]`. -/
def inTextGrid (x y : Int) : Bool :=
  decide (0 ≤ y) && decide (y < TEXT_CHARS_MAX_Y) && decide (0 ≤ x) && decide (x < TEXT_CHARS_MAX_X)

/-- Read of `a[y][x]`, after the bounds check. -/
def gridGet {α : Type} [Inhabited α] (a : List (List α)) (x y : Int) : α :=
  (a.getD y.toNat []).getD x.toNat default

/-- Write `a[y][x] = v`, after the bounds check. -/
def gridSet {α : Type} (a : List (List α)) (x y : Int) (v : α) : List (List α) :=
  a.set y.toNat ((a.getD y.toNat []).set x.toNat v)

/-- The inner loop of `RenderChar` over the bits `i = 0 .. 7` of one glyph
byte `val`, from bit `i` on with `n` bits to go. -/
def renderBits (colour background : Color) (isSet : Bool) (val : Nat) :
    Nat → Nat → Display → Display
  | 0, _, d => d
  | n + 1, i, d =>
    let val2 := ((val >>> i) % 256) &&& 0x1
    let d1 := if val2 == 1 && isSet then TFT_fill_send d colour else TFT_fill_send d background
    renderBits colour background isSet val n (i + 1) d1

/-- Source: `func RenderChar(x int, y int)`. `TFT_font` is the glyph table,
declared outside this file. -/
def RenderChar (TFT_font : List Nat) (st : TextState) (x y : Int) : Except Panic TextState :=
  if !st.display.TFT_initialized then .ok st
  else if !inTextGrid x y then .error Panic.indexOutOfRange
  else
    let low := gridGet st.text_char x y
    let high := (gridGet st.text_char x y + 8) % 256
    if low > high || high > TFT_font.length then .error Panic.sliceBoundsOutOfRange
    else
      let char := (TFT_font.drop low).take (high - low)
      let real_x := x * 8
      let real_y := y * 8
      let d0 := TFT_fill_start st.display
        (real_x % 65536).toNat (((real_x % 65536).toNat + 8) % 65536)
        (real_y % 65536).toNat (((real_y % 65536).toNat + 8) % 65536)
      let d1 := char.foldl
        (fun d val => renderBits (gridGet st.text_color x y) st.Background_color
          (gridGet st.text_set x y) val 8 0 d) d0
      .ok { st with display := TFT_fill_finish d1 }

/-- Source: `func SetCharacter(char byte, color Color, x int, y int)`. -/
def SetCharacter (TFT_font : List Nat) (st : TextState) (char : Nat) (color : Color)
    (x y : Int) : Except Panic TextState :=
  if !st.display.TFT_initialized then .ok st
  else if !inTextGrid x y then .error Panic.indexOutOfRange
  else
    RenderChar TFT_font
      { st with
          text_char := gridSet st.text_char x y char
          text_color := gridSet st.text_color x y color
          text_set := gridSet st.text_set x y true } x y

/-- The byte `"\n"[0]`. -/
def lineFeed : Nat := 10

/-- Source: `func AddCharacter(char byte, color Color) bool`. -/
def AddCharacter (TFT_font : List Nat) (st : TextState) (char : Nat) (color : Color) :
    Except Panic (TextState × Bool) :=
  if char == lineFeed then
    let st1 := { st with Text_y := wrapInt32 (st.Text_y + 1) }
    let st2 := { st1 with Text_x := 0 }
    .ok (st2, decide (st2.Text_y ≤ TEXT_CHARS_MAX_Y))
  else
    let st1 := { st with Text_x := wrapInt32 (st.Text_x + 1) }
    let st2 :=
      if st1.Text_x > (TEXT_CHARS_MAX_X : Int) then
        { st1 with Text_x := 0, Text_y := wrapInt32 (st1.Text_y + 1) }
      else st1
    if st2.Text_y > (TEXT_CHARS_MAX_Y : Int) then .ok (st2, false)
    else
      match SetCharacter TFT_font st2 char color st2.Text_x st2.Text_y with
      | .error p => .error p
      | .ok st3 => .ok (st3, true)

/-- Source: `func AddString(str string, color Color) bool`; `str` is the
list of the bytes of the string. -/
def AddString (TFT_font : List Nat) (st : TextState) (str : List Nat) (color : Color) :
    Except Panic (TextState × Bool) :=
  match str with
  | [] => .ok (st, true)
  | char :: rest =>
    match AddCharacter TFT_font st char color with
    | .error p => .error p
    | .ok (st1, false) => .ok (st1, false)
    | .ok (st1, true) => AddString TFT_font st1 rest color

/-- A sequence of `AddCharacter` calls, each made whatever the earlier ones
returned: the state after the last call and the result of every call. -/
def addCharacters (TFT_font : List Nat) (st : TextState) :
    List (Nat × Color) → Except Panic (TextState × List Bool)
  | [] => .ok (st, [])
  | (char, color) :: rest =>
    match AddCharacter TFT_font st char color with
    | .error p => .error p
    | .ok (st1, r) =>
      match addCharacters TFT_font st1 rest with
      | .error p => .error p
      | .ok (st2, rs) => .ok (st2, r :: rs)

/-- The empty text grid with the cursor at (0, 0). -/
def emptyText (initialized : Bool) : TextState :=
  { display := { TFT_initialized := initialized, pushed := [] }
    text_char := List.replicate TEXT_CHARS_MAX_Y (List.replicate TEXT_CHARS_MAX_X 0)
    text_color := List.replicate TEXT_CHARS_MAX_Y (List.replicate TEXT_CHARS_MAX_X 0)
    text_set := List.replicate TEXT_CHARS_MAX_Y (List.replicate TEXT_CHARS_MAX_X false)
    Text_x := 0
    Text_y := 0
    Background_color := Color16 0 0 0 }

/-- A glyph table long enough for every byte value (264 zero bytes). -/
def blankFont : List Nat := List.replicate 264 0

/-- The cursor `(Text_x, Text_y)` after a sequence of `AddCharacter` calls,
when all of them return. -/
def cursorAfter (TFT_font : List Nat) (st : TextState) (calls : List (Nat × Color)) :
    Option (Int × Int) :=
  match addCharacters TFT_font st calls with
  | .error _ => none
  | .ok (st1, _) => some (st1.Text_x, st1.Text_y)

/-! ## Sprites -/

/-- Source: `type Sprite struct`. The field `registered`, the lists the
sprite was registered in, is written by `Register` only and left out. -/
structure Sprite where
  X : Nat
  Y : Nat
  Z : Nat
  Size_X : Nat
  Size_Y : Nat
  Data : List (List Color)
deriving DecidableEq, Repr, Inhabited

/-- A Go map as its entries in insertion order; `none` is the nil map, the
value of a map variable declared without an initial value. -/
abbrev GoMap (κ ν : Type) := Option (List (κ × ν))

/-- Entries of a map with the value of key `k` replaced, or added last. -/
def assocSet {κ ν : Type} [DecidableEq κ] (k : κ) (v : ν) : List (κ × ν) → List (κ × ν)
  | [] => [(k, v)]
  | (k1, v1) :: rest => if k1 = k then (k, v) :: rest else (k1, v1) :: assocSet k v rest

namespace GoMap

/-- Assignment `m[k] = v`: a run-time panic on the nil map. -/
def assign {κ ν : Type} [DecidableEq κ] (m : GoMap κ ν) (k : κ) (v : ν) :
    Except Panic (GoMap κ ν) :=
  match m with
  | none => .error Panic.nilMapAssignment
  | some entries => .ok (some (assocSet k v entries))

/-- Read `m[k]`, with the zero value `zero` for a missing key. -/
def lookup {κ ν : Type} [DecidableEq κ] (m : GoMap κ ν) (k : κ) (zero : ν) : ν :=
  match m with
  | none => zero
  | some entries => ((entries.find? fun e => decide (e.1 = k)).map Prod.snd).getD zero

/-- What `for k, v := range m` visits; the nil map has no entries. -/
def entries {κ ν : Type} (m : GoMap κ ν) : List (κ × ν) := m.getD []

end GoMap

/-- Source: the comparison function `Render` passes to `slices.SortFunc`,
`int(a.Z - b.Z)`: the subtraction is done in `uint8`. -/
def spriteCmp (a b : Sprite) : Int := ((u8sub a.Z b.Z : Nat) : Int)

/-- The inner loop of the insertion sort of Go's `slices` package,
`for j := i; j > a && cmp(data[j], data[j-1]) < 0; j--` with a swap as its
body: `x` moves left past every neighbour it compares below. The sorted part
left of `x` is given nearest neighbour first. -/
def sinkLeft {α : Type} (cmp : α → α → Int) (x : α) : List α → List α
  | [] => [x]
  | y :: ys => if cmp x y < 0 then y :: sinkLeft cmp x ys else x :: y :: ys

/-- The insertion sort `slices.SortFunc` runs on a slice of at most 12
elements. -/
def insertionSortCmpFunc {α : Type} (cmp : α → α → Int) (data : List α) : List α :=
  (data.foldl (fun sortedRev x => sinkLeft cmp x sortedRev) []).reverse

/-- Source: the first loop of `Render`,
`mapOf[CreatePosition(sprite.X, sprite.Y)] = append(mapOf[...], sprite)`. -/
def groupSprites :
    List Sprite → GoMap Position (List Sprite) → Except Panic (GoMap Position (List Sprite))
  | [], mapOf => .ok mapOf
  | sprite :: rest, mapOf =>
    match mapOf.assign (CreatePosition sprite.X sprite.Y)
        (mapOf.lookup (CreatePosition sprite.X sprite.Y) [] ++ [sprite]) with
    | .error p => .error p
    | .ok mapOf1 => groupSprites rest mapOf1

/-- Source: `for x, color := range val { spriteData[CreatePosition(uint8(x), uint8(y))] = color }`,
from column `x` on. -/
def paintRow (y : Nat) : Nat → List Color → GoMap Position Color →
    Except Panic (GoMap Position Color)
  | _, [], spriteData => .ok spriteData
  | x, color :: rest, spriteData =>
    match spriteData.assign (CreatePosition (x % 256) (y % 256)) color with
    | .error p => .error p
    | .ok spriteData1 => paintRow y (x + 1) rest spriteData1

/-- Source: `for y, val := range sprite.Data { ... }`, from row `y` on. -/
def paintRows : Nat → List (List Color) → GoMap Position Color →
    Except Panic (GoMap Position Color)
  | _, [], spriteData => .ok spriteData
  | y, val :: rest, spriteData =>
    match paintRow y 0 val spriteData with
    | .error p => .error p
    | .ok spriteData1 => paintRows (y + 1) rest spriteData1

/-- Source: `for _, sprite := range sprites { ... }`, the loop of `Render`
that fills `spriteData`. -/
def paintSprites : List Sprite → GoMap Position Color → Except Panic (GoMap Position Color)
  | [], spriteData => .ok spriteData
  | sprite :: rest, spriteData =>
    match paintRows 0 sprite.Data spriteData with
    | .error p => .error p
    | .ok spriteData1 => paintSprites rest spriteData1

/-- Source: the loop `for pos, color := range custom_pixel_data` of
`Sprite.render` for the pixel `clr` at column `x`, row `y`; carries
`writing_sprite_pixel` and the display. -/
def substitutePixel (Background_color clr : Color) (x y : Nat) :
    List (Position × Color) → Bool × Display → Bool × Display
  | [], acc => acc
  | (pos, color) :: rest, acc =>
    if pos.GetX == x % 256 && pos.GetY == y % 256 && clr == Background_color then
      substitutePixel Background_color clr x y rest (false, TFT_fill_send acc.2 color)
    else
      substitutePixel Background_color clr x y rest acc

/-- Source: `for x, clr := range val { ... }` of `Sprite.render`, from
column `x` on. -/
def renderRow (Background_color : Color) (custom_pixel_data : GoMap Position Color) (y : Nat) :
    Nat → List Color → Display → Display
  | _, [], d => d
  | x, clr :: rest, d =>
    let looped := substitutePixel Background_color clr x y custom_pixel_data.entries (true, d)
    let d1 := if looped.1 then TFT_fill_send looped.2 clr else looped.2
    renderRow Background_color custom_pixel_data y (x + 1) rest d1

/-- Source: `for y, val := range sprite.Data { ... }` of `Sprite.render`,
from row `y` on. -/
def renderRows (Background_color : Color) (custom_pixel_data : GoMap Position Color) :
    Nat → List (List Color) → Display → Display
  | _, [], d => d
  | y, val :: rest, d =>
    renderRows Background_color custom_pixel_data (y + 1) rest
      (renderRow Background_color custom_pixel_data y 0 val d)

/-- Source: `func (sprite Sprite) render(custom_pixel_data map[Position]Color)`. -/
def Sprite.render (Background_color : Color) (sprite : Sprite)
    (custom_pixel_data : GoMap Position Color) (d : Display) : Display :=
  let d0 := TFT_fill_start d sprite.X ((sprite.X + sprite.Size_X) % 256)
    sprite.Y ((sprite.Y + sprite.Size_Y) % 256)
  TFT_fill_finish (renderRows Background_color custom_pixel_data 0 sprite.Data d0)

/-- Source: the body of `for _, sprites := range mapOf` in `Render`, over the
groups in the order given. `sortFunc` is `slices.SortFunc`. -/
def renderGroups (Background_color : Color)
    (sortFunc : (Sprite → Sprite → Int) → List Sprite → List Sprite) :
    List (Position × List Sprite) → Display → Except Panic Display
  | [], d => .ok d
  | (_, sprites) :: rest, d =>
    let sorted := sortFunc spriteCmp sprites
    match paintSprites sorted none with
    | .error p => .error p
    | .ok spriteData =>
      renderGroups Background_color sortFunc rest
        (sorted.foldl (fun d1 sprite => sprite.render Background_color spriteData d1) d)

/-- Source: `func (spriteList SpriteList) Render()`. The groups of `mapOf`
are visited in the order their first sprite was registered (Go leaves the
order of a map range open). -/
def Render (Background_color : Color)
    (sortFunc : (Sprite → Sprite → Int) → List Sprite → List Sprite)
    (spriteList : List Sprite) (d : Display) : Except Panic Display :=
  match groupSprites spriteList (some []) with
  | .error p => .error p
  | .ok mapOf => renderGroups Background_color sortFunc mapOf.entries d

/-! ## AVR watchdog -/

/-- Source: `type wtchdg struct { flags uint8 }` of
`src/machine/machine_avr_watchdog.go`. -/
structure wtchdg where
  flags : Nat
deriving DecidableEq, Repr

/-- Source: `const WatchdogMaxTimeout = 8192`. -/
def WatchdogMaxTimeout : Nat := 8192

/-- Source: the chain of comparisons of `wtchdg.Configure`: the value
assigned to `w.flags`, or `none` on the branch that returns the error. -/
def timeoutFlags (TimeoutMillis : Nat) : Option Nat :=
  if TimeoutMillis ≤ 16 then some 0b000000
  else if TimeoutMillis ≤ 32 then some 0b000001
  else if TimeoutMillis ≤ 64 then some 0b000010
  else if TimeoutMillis ≤ 128 then some 0b000011
  else if TimeoutMillis ≤ 256 then some 0b000100
  else if TimeoutMillis ≤ 512 then some 0b000101
  else if TimeoutMillis ≤ 1024 then some 0b000110
  else if TimeoutMillis ≤ 2048 then some 0b000111
  else if TimeoutMillis ≤ 4096 then some 0b100000
  else if TimeoutMillis ≤ 8192 then some 0b100001
  else none

/-- Source: `func (w *wtchdg) Configure(config WatchdogConfig) error`, with
`config.TimeoutMillis` as argument. `WDTCSR_WDE` is the constant
`avr.WDTCSR_WDE` of the device package, a `uint8` bit mask. Returns the
receiver after the call and the error, `none` for `nil`. -/
def wtchdg.Configure (WDTCSR_WDE : Nat) (w : wtchdg) (TimeoutMillis : Nat) :
    wtchdg × Option String :=
  match timeoutFlags TimeoutMillis with
  | none => (w, some "too big timeout; expected under or equal to 8192 ms")
  | some selected => ({ w with flags := (selected ||| WDTCSR_WDE) % 256 }, none)

/-- The prescaler encoding of `k` as the claim words it: the low three bits
of `k` in bits 0..2 and bit 3 of `k` in bit 5. -/
def prescalerEncoding (k : Nat) : Nat := (k % 8) ||| ((k / 8 % 2) <<< 5)

/-- A full history with 32 `true` samples followed by 32 `false` samples. -/
def evenSplit : ButtonState :=
  { History := List.replicate 32 true ++ List.replicate 32 false
    LastState := false
    ReadState := false
    HistoryIdx := 64
    Pin := 5 }

/-- A one-pixel sprite at the origin with `Z = 0` and a pixel that is not
the background colour `Color16 0 0 0 = 0`. -/
def spriteA : Sprite := { X := 0, Y := 0, Z := 0, Size_X := 1, Size_Y := 1, Data := [[0xF800]] }

/-- A one-pixel sprite at the origin with `Z = 1` and a background pixel. -/
def spriteB : Sprite := { X := 0, Y := 0, Z := 1, Size_X := 1, Size_Y := 1, Data := [[0]] }

/-- The boolean a text function returned, when it returned. -/
def flagOf (r : Except Panic (TextState × Bool)) : Option Bool :=
  match r with
  | .error _ => none
  | .ok (_, flag) => some flag

/-- The number of compositing groups `Render` forms for a list of sprites:
the number of keys of `mapOf` after its first loop. -/
def groupCount (spriteList : List Sprite) : Nat :=
  match groupSprites spriteList (some []) with
  | .error _ => 0
  | .ok mapOf => mapOf.entries.length

/-! ## Buttons: lemmas -/

theorem pollStep_foldl_fst (pinGet : Nat → Bool) (indices : List Nat)
    (acc : List ButtonState × Bool) :
    (indices.foldl (pollStep pinGet) acc).1 = acc.1 := by
  induction indices generalizing acc with
  | nil => rfl
  | cons i rest ih => rw [List.foldl_cons, ih]; rfl

theorem countLoop_eq_count (history : List Bool) (i : Nat) (hi : i ≤ 255) :
    ButtonState.countLoop history i = (history.take i).count true := by
  induction i with
  | zero => simp [ButtonState.countLoop]
  | succ n ih =>
    have hn := ih (by omega)
    have hle : (history.take n).count true ≤ n :=
      le_trans (List.count_le_length _ _) (List.length_take_le n history)
    rw [ButtonState.countLoop, hn, List.take_succ, List.count_append]
    rcases hget : history[n]? with _ | b
    · simp [List.getD_eq_getElem?_getD, hget]
    · cases b
      · simp [List.getD_eq_getElem?_getD, hget]
      · simp [List.getD_eq_getElem?_getD, hget]
        omega

theorem addStates_within_window (samples : List Bool) (state : ButtonState)
    (h : state.HistoryIdx + samples.length ≤ 64) :
    (addStates state samples).2 = List.replicate samples.length true ∧
      (addStates state samples).1.HistoryIdx = state.HistoryIdx + samples.length := by
  induction samples generalizing state with
  | nil => simp [addStates]
  | cons item rest ih =>
    simp only [List.length_cons] at h
    have hlt : ¬ state.HistoryIdx ≥ HISTORY_LEN := by simp only [HISTORY_LEN]; omega
    have hstep : state.AddState item =
        ({ state with
            LastState := item
            History := state.History.set state.HistoryIdx item
            HistoryIdx := (state.HistoryIdx + 1) % 256 }, true) := by
      simp only [ButtonState.AddState, if_neg hlt]
    have hidx : (state.AddState item).1.HistoryIdx = state.HistoryIdx + 1 := by
      rw [hstep]; show (state.HistoryIdx + 1) % 256 = _; omega
    have hres : (state.AddState item).2 = true := by rw [hstep]
    have := ih (state.AddState item).1 (by rw [hidx]; omega)
    simp only [addStates, List.length_cons, List.replicate_succ, this.1, this.2, hidx, hres]
    exact ⟨trivial, by omega⟩

theorem ClearHistory_not_ready (t : ButtonState) (h : t.HistoryIdx < 64) :
    t.ClearHistory = (t, false, false) := by
  simp [ButtonState.ClearHistory, HISTORY_LEN, h]

theorem ClearHistory_ready (t : ButtonState) (h : 64 ≤ t.HistoryIdx) :
    t.ClearHistory.2.1 = true ∧ t.ClearHistory.1.HistoryIdx = 0 := by
  have hn : ¬ t.HistoryIdx < HISTORY_LEN := by simp only [HISTORY_LEN]; omega
  simp only [ButtonState.ClearHistory, if_neg hn]
  split <;> exact ⟨rfl, rfl⟩

/-! ## Buttons: results -/

/-- C1 (the code departs from the claim): `PollAllButtons` works on a copy of
each element of `BUTTON_STATES`, so for every bank and every pin reading the
bank is the same after the call as before it, and no `HistoryIdx` in the bank
is one greater than before. -/
theorem PollAllButtons_leaves_bank_unchanged (pinGet : Nat → Bool) (bank : List ButtonState) :
    (PollAllButtons pinGet bank).1 = bank ∧
      ∀ i, ((PollAllButtons pinGet bank).1.getD i default).HistoryIdx ≠
        (bank.getD i default).HistoryIdx + 1 := by
  have h : (PollAllButtons pinGet bank).1 = bank := pollStep_foldl_fst pinGet _ _
  refine ⟨h, fun i => ?_⟩
  rw [h]
  omega

/-- C2 (the code departs from the claim): on a full history `ClearHistory`
returns ready, and its second result and `ReadState` are true exactly when at
least one sample is true: the threshold `(5/6)*HISTORY_LEN` is 0, not 5/6 of
the window. -/
theorem ClearHistory_threshold_is_zero (state : ButtonState)
    (hfull : state.HistoryIdx = 64) (hlen : state.History.length = 64) :
    state.ClearHistory.2 = (true, decide (0 < state.History.count true)) ∧
      state.ClearHistory.1.ReadState = decide (0 < state.History.count true) := by
  have hn : ¬ state.HistoryIdx < HISTORY_LEN := by simp only [HISTORY_LEN]; omega
  have hc : ButtonState.countLoop state.History HISTORY_LEN = state.History.count true := by
    rw [countLoop_eq_count _ _ (by simp only [HISTORY_LEN]; omega)]
    rw [List.take_of_length_le (by simp only [HISTORY_LEN]; omega)]
  have ht : ButtonState.clearThreshold = 0 := by decide
  simp only [ButtonState.ClearHistory, if_neg hn, hc, ht]
  by_cases hpos : 0 < state.History.count true
  · simp [hpos]
  · simp [hpos]

/-- Witness for C2: the 32/32 split is read as stable state true. -/
theorem ClearHistory_threshold_is_zero_witness :
    evenSplit.ClearHistory.2 = (true, decide (0 < evenSplit.History.count true)) ∧
      evenSplit.ClearHistory.1.ReadState = decide (0 < evenSplit.History.count true) :=
  ClearHistory_threshold_is_zero evenSplit (by decide) (by decide)

/-- C3: from `HistoryIdx = 0`, for every 64 samples, all 64 `AddState` calls
return true and leave `HistoryIdx = 64`; a further `AddState` returns false
and changes nothing; `ClearHistory` at any `HistoryIdx < 64` is not ready and
changes nothing; `ClearHistory` at `HistoryIdx = 64` is ready and sets
`HistoryIdx` to 0; and after `k ≤ 64` appends `ClearHistory` is ready exactly
when `k = 64`. -/
theorem window_cycle (state : ButtonState) (samples : List Bool)
    (h0 : state.HistoryIdx = 0) (hlen : samples.length = 64) :
    (addStates state samples).2 = List.replicate 64 true ∧
      (addStates state samples).1.HistoryIdx = 64 ∧
      (∀ item, (addStates state samples).1.AddState item = ((addStates state samples).1, false)) ∧
      (∀ t : ButtonState, t.HistoryIdx < 64 → t.ClearHistory = (t, false, false)) ∧
      (∀ t : ButtonState, t.HistoryIdx = 64 →
        t.ClearHistory.2.1 = true ∧ t.ClearHistory.1.HistoryIdx = 0) ∧
      (∀ k, k ≤ 64 →
        ((addStates state (samples.take k)).1.ClearHistory.2.1 = true ↔ k = 64)) := by
  have hall := addStates_within_window samples state (by omega)
  rw [hlen, h0] at hall
  refine ⟨hall.1, hall.2, ?_, ClearHistory_not_ready, ?_, ?_⟩
  · intro item
    simp [ButtonState.AddState, HISTORY_LEN, hall.2]
  · intro t ht
    exact ClearHistory_ready t (by omega)
  · intro k hk
    have hk2 : (samples.take k).length = k := by simp; omega
    have hpre := (addStates_within_window (samples.take k) state (by omega)).2
    rw [hk2, h0] at hpre
    constructor
    · intro hready
      by_contra hne
      have hlt : (addStates state (samples.take k)).1.HistoryIdx < 64 := by omega
      rw [ClearHistory_not_ready _ hlt] at hready
      exact Bool.false_ne_true hready
    · intro hk64
      exact (ClearHistory_ready _ (by omega)).1

/-- Witness for C3: the first button of the bank and 64 samples `true`. -/
theorem window_cycle_witness :
    (addStates (initButtonStates.getD 0 default) (List.replicate 64 true)).2
        = List.replicate 64 true ∧
      (addStates (initButtonStates.getD 0 default) (List.replicate 64 true)).1.HistoryIdx = 64 :=
  have h := window_cycle (initButtonStates.getD 0 default) (List.replicate 64 true)
    (by decide) (by decide)
  ⟨h.1, h.2.1⟩

/-! ## Colours, positions and ordering: results -/

/-- C5 (the code departs from the claim): `CreatePosition` drops its `x`
argument, because `x << 8` is computed in 8 bits: the position is `y` alone,
`GetX` of it is 0, and sprites with different `X` and equal `Y` get the same
key, as (1, 0) and (2, 0) do; `Render` puts a sprite at (1, 0) and one at
(2, 0) in one compositing group. -/
theorem CreatePosition_ignores_x (x1 x2 y : Nat) :
    CreatePosition x1 y = CreatePosition x2 y ∧
      CreatePosition x1 y = y % 256 ∧
      (CreatePosition x1 y).GetX = 0 ∧
      CreatePosition 1 0 = CreatePosition 2 0 ∧
      groupCount [{ spriteA with X := 1 }, { spriteA with X := 2 }] = 1 := by
  have h : ∀ x, CreatePosition x y = y % 256 := by
    intro x
    simp [CreatePosition, Nat.shiftLeft_eq]
  refine ⟨by rw [h, h], h x1, ?_, by decide, by decide⟩
  rw [h]
  have hlt : y % 256 < 256 := Nat.mod_lt _ (by decide)
  simp [Position.GetX, Nat.shiftRight_eq_div_pow, Nat.div_eq_of_lt hlt]

/-- C6 (the code departs from the claim): the comparison function of
`Render` is never negative, because `a.Z - b.Z` wraps in `uint8`; for
`a.Z = 0` and `b.Z = 1` it returns 255, and the insertion sort leaves a group
registered as `Z = 1` then `Z = 0` in that order. -/
theorem spriteCmp_never_negative (a b : Sprite) :
    0 ≤ spriteCmp a b ∧ spriteCmp spriteA spriteB = 255 ∧
      insertionSortCmpFunc spriteCmp [spriteB, spriteA] = [spriteB, spriteA] := by
  refine ⟨?_, by decide, by decide⟩
  simp [spriteCmp]

/-- C9 (the code departs from the claim): `Color16(255, g, 255)` is `0x19E3`
for every `g`, not `0xFFFF`: the masks `0b11111000` and `0b11111100` and the
shift `>> 3` are applied to the channels after they were scaled to 5 and 6
bits. -/
theorem Color16_of_white_is_not_white (g : Nat) :
    Color16 255 g 255 = 0x19E3 ∧ Color16 255 g 255 ≠ 0xFFFF := by
  have h : Color16 255 g 255 = 0x19E3 := by
    show Color16 255 0 255 = 0x19E3
    decide
  rw [h]
  exact ⟨rfl, by decide⟩

/-! ## Sprites: lemmas -/

theorem sinkLeft_perm {α : Type} (cmp : α → α → Int) (x : α) (sorted : List α) :
    (sinkLeft cmp x sorted).Perm (x :: sorted) := by
  induction sorted with
  | nil => exact List.Perm.refl _
  | cons y ys ih =>
    simp only [sinkLeft]
    split
    · exact ((List.Perm.cons y ih).trans (List.Perm.swap x y ys))
    · exact List.Perm.refl _

theorem sinkLeft_foldl_perm {α : Type} (cmp : α → α → Int) (data sortedRev : List α) :
    (data.foldl (fun acc x => sinkLeft cmp x acc) sortedRev).Perm (data ++ sortedRev) := by
  induction data generalizing sortedRev with
  | nil => exact List.Perm.refl _
  | cons x rest ih =>
    rw [List.foldl_cons]
    refine (ih _).trans ?_
    refine (List.Perm.append_left rest (sinkLeft_perm cmp x sortedRev)).trans ?_
    exact List.perm_middle

theorem insertionSortCmpFunc_perm {α : Type} (cmp : α → α → Int) (data : List α) :
    (insertionSortCmpFunc cmp data).Perm data := by
  have h := sinkLeft_foldl_perm cmp data []
  rw [List.append_nil] at h
  exact (List.reverse_perm _).trans h

theorem paintSprites_nil_map (sprite : Sprite) (rest : List Sprite)
    (c : Color) (row : List Color) (rows : List (List Color))
    (h : sprite.Data = (c :: row) :: rows) :
    paintSprites (sprite :: rest) none = .error Panic.nilMapAssignment := by
  simp [paintSprites, h, paintRows, paintRow, GoMap.assign]

theorem groupSprites_pair (A B : Sprite) (hX : A.X = B.X) (hY : A.Y = B.Y) :
    groupSprites [A, B] (some []) = .ok (some [(CreatePosition B.X B.Y, [A, B])]) := by
  simp [groupSprites, GoMap.assign, GoMap.lookup, assocSet, hX, hY]

/-! ## Sprites: results -/

/-- C4 (the code departs from the claim): for two sprites registered at the
same position, each with a pixel in its first row, `Render` does not
complete. The map `spriteData` is declared without a value, so the first
assignment into it is a run-time panic, whatever the colours, the `Z` values
and the order the sort leaves the pair in. -/
theorem Render_stacked_pair_panics (Background_color : Color)
    (sortFunc : (Sprite → Sprite → Int) → List Sprite → List Sprite)
    (A B : Sprite) (d : Display)
    (hsort : ∀ cmp data, (sortFunc cmp data).Perm data)
    (hX : A.X = B.X) (hY : A.Y = B.Y)
    (hA : ∃ c row rows, A.Data = (c :: row) :: rows)
    (hB : ∃ c row rows, B.Data = (c :: row) :: rows) :
    Render Background_color sortFunc [A, B] d = .error Panic.nilMapAssignment := by
  have hperm := hsort spriteCmp [A, B]
  simp only [Render, groupSprites_pair A B hX hY, GoMap.entries, Option.getD_some, renderGroups]
  rcases hs : sortFunc spriteCmp [A, B] with _ | ⟨first, others⟩
  · rw [hs] at hperm
    exact absurd hperm.length_eq (by simp)
  · have hmem : first ∈ [A, B] := by
      rw [hs] at hperm
      exact hperm.mem_iff.mp (List.mem_cons_self _ _)
    have hdata : ∃ c row rows, first.Data = (c :: row) :: rows := by
      simp only [List.mem_cons, List.mem_singleton, List.not_mem_nil, or_false] at hmem
      rcases hmem with rfl | rfl
      · exact hA
      · exact hB
    obtain ⟨c, row, rows, hfirst⟩ := hdata
    simp only [paintSprites_nil_map first others c row rows hfirst]

/-- Witness for C4: sprite A (Z = 0, one non-background pixel) under sprite B
(Z = 1, one background pixel), with the insertion sort of `slices.SortFunc`. -/
theorem Render_stacked_pair_panics_witness :
    Render (Color16 0 0 0) insertionSortCmpFunc [spriteA, spriteB]
      { TFT_initialized := true, pushed := [] } = .error Panic.nilMapAssignment :=
  Render_stacked_pair_panics (Color16 0 0 0) insertionSortCmpFunc spriteA spriteB
    { TFT_initialized := true, pushed := [] }
    (fun cmp data => insertionSortCmpFunc_perm cmp data) rfl rfl
    ⟨0xF800, [], [], rfl⟩ ⟨0, [], [], rfl⟩

/-! ## Text grid: lemmas -/

theorem wrapInt32_of_range (v : Int) (hlo : -2147483648 ≤ v) (hhi : v < 2147483648) :
    wrapInt32 v = v := by
  unfold wrapInt32
  omega

theorem TFT_fill_send_flag (d : Display) (pixel : Color) :
    (TFT_fill_send d pixel).TFT_initialized = d.TFT_initialized := by
  unfold TFT_fill_send
  split <;> rfl

theorem TFT_fill_start_flag (d : Display) (a b c e : Nat) :
    (TFT_fill_start d a b c e).TFT_initialized = d.TFT_initialized := by
  unfold TFT_fill_start
  split <;> rfl

theorem TFT_fill_finish_flag (d : Display) :
    (TFT_fill_finish d).TFT_initialized = d.TFT_initialized := by
  unfold TFT_fill_finish
  split <;> rfl

theorem renderBits_flag (colour background : Color) (isSet : Bool) (val n i : Nat) (d : Display) :
    (renderBits colour background isSet val n i d).TFT_initialized = d.TFT_initialized := by
  induction n generalizing i d with
  | zero => rfl
  | succ n ih =>
    simp only [renderBits]
    rw [ih]
    split <;> exact TFT_fill_send_flag _ _

theorem renderGlyph_flag (colour background : Color) (isSet : Bool) (glyph : List Nat)
    (d : Display) :
    (glyph.foldl (fun d val => renderBits colour background isSet val 8 0 d) d).TFT_initialized
      = d.TFT_initialized := by
  induction glyph generalizing d with
  | nil => rfl
  | cons val rest ih => rw [List.foldl_cons, ih, renderBits_flag]

theorem RenderChar_frame (TFT_font : List Nat) (st st1 : TextState) (x y : Int)
    (h : RenderChar TFT_font st x y = .ok st1) :
    st1.Text_x = st.Text_x ∧ st1.Text_y = st.Text_y ∧
      st1.display.TFT_initialized = st.display.TFT_initialized := by
  unfold RenderChar at h
  split at h
  · cases h; exact ⟨rfl, rfl, rfl⟩
  · split at h
    · cases h
    · simp only at h
      split at h
      · cases h
      · cases h
        refine ⟨rfl, rfl, ?_⟩
        simp only [TFT_fill_finish_flag, renderGlyph_flag, TFT_fill_start_flag]

theorem SetCharacter_frame (TFT_font : List Nat) (st st1 : TextState) (char : Nat)
    (color : Color) (x y : Int)
    (h : SetCharacter TFT_font st char color x y = .ok st1) :
    st1.Text_x = st.Text_x ∧ st1.Text_y = st.Text_y ∧
      st1.display.TFT_initialized = st.display.TFT_initialized := by
  unfold SetCharacter at h
  split at h
  · cases h; exact ⟨rfl, rfl, rfl⟩
  · split at h
    · cases h
    · have hr := RenderChar_frame _ _ _ _ _ h
      exact hr

theorem SetCharacter_off (TFT_font : List Nat) (st : TextState) (char : Nat)
    (color : Color) (x y : Int) (hoff : st.display.TFT_initialized = false) :
    SetCharacter TFT_font st char color x y = .ok st := by
  simp [SetCharacter, hoff]

theorem SetCharacter_outside (TFT_font : List Nat) (st : TextState) (char : Nat)
    (color : Color) (x y : Int) (hon : st.display.TFT_initialized = true)
    (hout : inTextGrid x y = false) :
    SetCharacter TFT_font st char color x y = .error Panic.indexOutOfRange := by
  simp [SetCharacter, hon, hout]

theorem AddCharacter_cursor (TFT_font : List Nat) (st st1 : TextState) (char : Nat)
    (color : Color) (r : Bool)
    (h : AddCharacter TFT_font st char color = .ok (st1, r))
    (hx0 : 0 ≤ st.Text_x) (hx1 : st.Text_x ≤ 20)
    (hy0 : 0 ≤ st.Text_y) (hy1 : st.Text_y < 2147483647) :
    0 ≤ st1.Text_x ∧ st1.Text_x ≤ 20 ∧ st.Text_y ≤ st1.Text_y ∧ st1.Text_y ≤ st.Text_y + 1 ∧
      (r = true ↔ st1.Text_y ≤ 16) ∧
      st1.display.TFT_initialized = st.display.TFT_initialized := by
  have hwx : wrapInt32 (st.Text_x + 1) = st.Text_x + 1 :=
    wrapInt32_of_range _ (by omega) (by omega)
  have hwy : wrapInt32 (st.Text_y + 1) = st.Text_y + 1 :=
    wrapInt32_of_range _ (by omega) (by omega)
  unfold AddCharacter at h
  simp only [hwx, hwy, TEXT_CHARS_MAX_X, TEXT_CHARS_MAX_Y, Nat.cast_ofNat] at h
  split at h
  · simp only [Except.ok.injEq, Prod.mk.injEq] at h
    obtain ⟨hst, hr⟩ := h
    subst hst
    subst hr
    dsimp only
    exact ⟨by omega, by omega, by omega, by omega, by simp, rfl⟩
  · by_cases hwrap : st.Text_x + 1 > 20
    · simp only [hwrap, if_true] at h
      split at h
      · rename_i hover
        simp only [Except.ok.injEq, Prod.mk.injEq] at h
        obtain ⟨hst, hr⟩ := h
        subst hst
        subst hr
        dsimp only at hover ⊢
        exact ⟨by omega, by omega, by omega, by omega, by simp; omega, rfl⟩
      · rename_i hfit
        split at h
        · cases h
        · rename_i st3 hset
          have hf := SetCharacter_frame _ _ _ _ _ _ _ hset
          simp only [Except.ok.injEq, Prod.mk.injEq] at h
          obtain ⟨hst, hr⟩ := h
          subst hst
          subst hr
          dsimp only at hf
          rw [hf.1, hf.2.1, hf.2.2]
          exact ⟨by omega, by omega, by omega, by omega, by simp; omega, rfl⟩
    · simp only [hwrap, if_false] at h
      split at h
      · rename_i hover
        simp only [Except.ok.injEq, Prod.mk.injEq] at h
        obtain ⟨hst, hr⟩ := h
        subst hst
        subst hr
        dsimp only at hover ⊢
        exact ⟨by omega, by omega, by omega, by omega, by simp; omega, rfl⟩
      · rename_i hfit
        split at h
        · cases h
        · rename_i st3 hset
          have hf := SetCharacter_frame _ _ _ _ _ _ _ hset
          simp only [Except.ok.injEq, Prod.mk.injEq] at h
          obtain ⟨hst, hr⟩ := h
          subst hst
          subst hr
          dsimp only at hf
          rw [hf.1, hf.2.1, hf.2.2]
          exact ⟨by omega, by omega, by omega, by omega, by simp; omega, rfl⟩

theorem AddCharacter_off (TFT_font : List Nat) (st : TextState) (char : Nat) (color : Color)
    (hoff : st.display.TFT_initialized = false) :
    ∃ st1 r, AddCharacter TFT_font st char color = .ok (st1, r) ∧
      st1.display.TFT_initialized = false := by
  unfold AddCharacter
  split
  · exact ⟨_, _, rfl, hoff⟩
  · dsimp only
    split
    · split
      · exact ⟨_, _, rfl, hoff⟩
      · simp only [SetCharacter, hoff, Bool.not_false, if_true]
        exact ⟨_, _, rfl, hoff⟩
    · split
      · exact ⟨_, _, rfl, hoff⟩
      · simp only [SetCharacter, hoff, Bool.not_false, if_true]
        exact ⟨_, _, rfl, hoff⟩

theorem AddCharacter_same_row (TFT_font : List Nat) (st st1 : TextState) (char : Nat)
    (color : Color) (r : Bool)
    (h : AddCharacter TFT_font st char color = .ok (st1, r))
    (hchar : char ≠ lineFeed) (hx0 : 0 ≤ st.Text_x) (hx1 : st.Text_x < 20)
    (hy : st.Text_y ≤ 16) :
    r = true ∧ st1.Text_x = st.Text_x + 1 ∧ st1.Text_y = st.Text_y ∧
      st1.display.TFT_initialized = st.display.TFT_initialized := by
  have hwx : wrapInt32 (st.Text_x + 1) = st.Text_x + 1 :=
    wrapInt32_of_range _ (by omega) (by omega)
  have hc : (char == lineFeed) = false := by simpa using hchar
  have hwrap : ¬ st.Text_x + 1 > 20 := by omega
  have hfit : ¬ st.Text_y > 16 := by omega
  unfold AddCharacter at h
  simp only [hwx, hc, TEXT_CHARS_MAX_X, TEXT_CHARS_MAX_Y, Nat.cast_ofNat, hwrap, hfit,
    if_false, Bool.false_eq_true] at h
  split at h
  · cases h
  · rename_i st3 hset
    have hf := SetCharacter_frame _ _ _ _ _ _ _ hset
    simp only [Except.ok.injEq, Prod.mk.injEq] at h
    obtain ⟨hst, hr⟩ := h
    subst hst
    subst hr
    dsimp only at hf
    exact ⟨rfl, hf.1, hf.2.1, hf.2.2⟩

theorem AddCharacter_past_last_column (TFT_font : List Nat) (st : TextState) (char : Nat)
    (color : Color) (hon : st.display.TFT_initialized = true)
    (hchar : char ≠ lineFeed) (hx : st.Text_x = 19) (hy : st.Text_y ≤ 16) :
    AddCharacter TFT_font st char color = .error Panic.indexOutOfRange := by
  have hwx : wrapInt32 (st.Text_x + 1) = 20 := by
    rw [hx]; decide
  have hc : (char == lineFeed) = false := by simpa using hchar
  have hfit : ¬ st.Text_y > 16 := by omega
  unfold AddCharacter
  simp only [hwx, hc, TEXT_CHARS_MAX_X, TEXT_CHARS_MAX_Y, Nat.cast_ofNat, hfit,
    if_false, Bool.false_eq_true, gt_iff_lt, lt_self_iff_false]
  rw [SetCharacter_outside]
  · exact hon
  · simp [inTextGrid, TEXT_CHARS_MAX_X]

theorem addCharacters_row_overrun (TFT_font : List Nat) (calls : List (Nat × Color))
    (st : TextState) (hon : st.display.TFT_initialized = true)
    (hx0 : 0 ≤ st.Text_x) (hx1 : st.Text_x ≤ 19) (hy : st.Text_y ≤ 16)
    (hlen : 20 ≤ st.Text_x + calls.length)
    (hchars : ∀ call ∈ calls, call.1 ≠ lineFeed) :
    ∃ p, addCharacters TFT_font st calls = .error p := by
  induction calls generalizing st with
  | nil =>
    simp only [List.length_nil, Nat.cast_zero, add_zero] at hlen
    omega
  | cons call rest ih =>
    obtain ⟨char, color⟩ := call
    have hchar : char ≠ lineFeed := hchars (char, color) (List.mem_cons_self _ _)
    simp only [addCharacters]
    by_cases hlast : st.Text_x = 19
    · rw [AddCharacter_past_last_column TFT_font st char color hon hchar hlast hy]
      exact ⟨_, rfl⟩
    · rcases hres : AddCharacter TFT_font st char color with p | ⟨st1, r⟩
      · exact ⟨p, rfl⟩
      · have hstep := AddCharacter_same_row TFT_font st st1 char color r hres hchar hx0
          (by omega) hy
        simp only [List.length_cons, Nat.cast_succ] at hlen
        obtain ⟨p, hp⟩ := ih st1 (by rw [hstep.2.2.2]; exact hon) (by omega) (by omega)
          (by omega) (by omega) (fun call hmem => hchars call (List.mem_cons_of_mem _ hmem))
        simp only [hp]
        exact ⟨p, rfl⟩

theorem addCharacters_cursor (TFT_font : List Nat) (calls : List (Nat × Color))
    (st st1 : TextState) (rs : List Bool)
    (h : addCharacters TFT_font st calls = .ok (st1, rs))
    (hx0 : 0 ≤ st.Text_x) (hx1 : st.Text_x ≤ 20)
    (hy0 : 0 ≤ st.Text_y) (hy1 : st.Text_y + calls.length < 2147483648) :
    0 ≤ st1.Text_x ∧ st1.Text_x ≤ 20 ∧ st.Text_y ≤ st1.Text_y ∧
      st1.Text_y ≤ st.Text_y + calls.length ∧
      (st1.Text_y ≤ 16 ↔ st.Text_y ≤ 16 ∧ ∀ r ∈ rs, r = true) := by
  induction calls generalizing st rs with
  | nil =>
    simp only [addCharacters, Except.ok.injEq, Prod.mk.injEq] at h
    obtain ⟨hst, hrs⟩ := h
    subst hst
    subst hrs
    exact ⟨hx0, hx1, le_refl _, by simp, by simp⟩
  | cons call rest ih =>
    obtain ⟨char, color⟩ := call
    simp only [List.length_cons, Nat.cast_succ] at hy1 ⊢
    simp only [addCharacters] at h
    rcases hres : AddCharacter TFT_font st char color with p | ⟨st2, r⟩
    · simp only [hres] at h
      cases h
    · simp only [hres] at h
      have hstep := AddCharacter_cursor TFT_font st st2 char color r hres hx0 hx1 hy0
        (by omega)
      rcases hrest : addCharacters TFT_font st2 rest with p | ⟨st3, rs3⟩
      · simp only [hrest] at h
        cases h
      · simp only [hrest, Except.ok.injEq, Prod.mk.injEq] at h
        obtain ⟨hst, hrs⟩ := h
        subst hst
        subst hrs
        have hrec := ih st2 rs3 hrest hstep.1 hstep.2.1 (by omega) (by omega)
        refine ⟨hrec.1, hrec.2.1, by omega, by omega, ?_⟩
        rw [hrec.2.2.2.2]
        simp only [List.mem_cons, forall_eq_or_imp]
        rw [hstep.2.2.2.2.1]
        constructor
        · rintro ⟨h16, hall⟩
          exact ⟨by omega, h16, hall⟩
        · rintro ⟨_, h16, hall⟩
          exact ⟨h16, hall⟩

theorem addCharacters_off (TFT_font : List Nat) (calls : List (Nat × Color))
    (st : TextState) (hoff : st.display.TFT_initialized = false) :
    ∃ st1 rs, addCharacters TFT_font st calls = .ok (st1, rs) := by
  induction calls generalizing st with
  | nil => exact ⟨_, _, rfl⟩
  | cons call rest ih =>
    obtain ⟨char, color⟩ := call
    obtain ⟨st2, r, hres, hoff2⟩ := AddCharacter_off TFT_font st char color hoff
    obtain ⟨st3, rs3, hrest⟩ := ih st2 hoff2
    simp only [addCharacters, hres, hrest]
    exact ⟨_, _, rfl⟩

theorem AddString_flag (TFT_font : List Nat) (str : List Nat) (color : Color)
    (st st1 : TextState) (r : Bool)
    (h : AddString TFT_font st str color = .ok (st1, r))
    (hx0 : 0 ≤ st.Text_x) (hx1 : st.Text_x ≤ 20)
    (hy0 : 0 ≤ st.Text_y) (hy16 : st.Text_y ≤ 16)
    (hlen : st.Text_y + str.length < 2147483648) :
    (r = true ↔ st1.Text_y ≤ 16) := by
  induction str generalizing st with
  | nil =>
    simp only [AddString, Except.ok.injEq, Prod.mk.injEq] at h
    obtain ⟨hst, hr⟩ := h
    subst hst
    subst hr
    simp [hy16]
  | cons char rest ih =>
    simp only [List.length_cons, Nat.cast_succ] at hlen
    rcases hres : AddCharacter TFT_font st char color with p | ⟨st2, r2⟩
    · simp only [AddString, hres] at h
      cases h
    · have hstep := AddCharacter_cursor TFT_font st st2 char color r2 hres hx0 hx1 hy0
        (by omega)
      cases r2 with
      | false =>
        simp only [AddString, hres, Except.ok.injEq, Prod.mk.injEq] at h
        obtain ⟨hst, hr⟩ := h
        subst hst
        subst hr
        exact hstep.2.2.2.2.1
      | true =>
        simp only [AddString, hres] at h
        exact ih st2 h hstep.1 hstep.2.1 (by omega) (hstep.2.2.2.2.1.mp rfl) (by omega)

theorem AddString_off (TFT_font : List Nat) (str : List Nat) (color : Color)
    (st : TextState) (hoff : st.display.TFT_initialized = false) :
    ∃ st1 r, AddString TFT_font st str color = .ok (st1, r) := by
  induction str generalizing st with
  | nil => exact ⟨_, _, rfl⟩
  | cons char rest ih =>
    obtain ⟨st2, r2, hres, hoff2⟩ := AddCharacter_off TFT_font st char color hoff
    cases r2 with
    | false =>
      simp only [AddString, hres]
      exact ⟨_, _, rfl⟩
    | true =>
      simp only [AddString, hres]
      exact ih st2 hoff2

/-! ## Text grid: results -/

/-- C7 (the code departs from the claim): with the display initialized and
the cursor at (0, 0), no sequence of 20 or more non-line-feed characters can
be appended: the run of `AddCharacter` calls ends in a run-time panic. The
20th call has `Text_x = 20` and indexes `text_char[0][20]`, one past the last
column (an earlier call can only fail first, on the glyph slice). -/
theorem AddCharacter_row_of_twenty_panics (TFT_font : List Nat) (st : TextState)
    (calls : List (Nat × Color))
    (hon : st.display.TFT_initialized = true)
    (hx : st.Text_x = 0) (hy : st.Text_y = 0)
    (hlen : 20 ≤ calls.length)
    (hchars : ∀ call ∈ calls, call.1 ≠ lineFeed) :
    ∃ p, addCharacters TFT_font st calls = .error p :=
  addCharacters_row_overrun TFT_font calls st hon (by omega) (by omega) (by omega)
    (by omega) hchars

set_option maxRecDepth 100000 in
/-- Witness for C7: on the empty grid with a full glyph table, 19 letters
`a` are appended and leave the cursor at (19, 0); the 20th panics. -/
theorem AddCharacter_row_of_twenty_panics_witness :
    cursorAfter blankFont (emptyText true) (List.replicate 19 (97, 0xFFFF)) = some (19, 0) ∧
      ∃ p, addCharacters blankFont (emptyText true) (List.replicate 20 (97, 0xFFFF))
        = .error p :=
  ⟨by decide,
    AddCharacter_row_of_twenty_panics blankFont (emptyText true)
      (List.replicate 20 (97, 0xFFFF)) rfl rfl rfl (by decide) (by decide)⟩

/-- C8 (the code departs from the claim): from a cursor on the grid,
`AddString` returns true exactly when the cursor is still within the 16 rows
afterwards, that is when no character overflowed, and false when one did:
the flag is the opposite of the overflow flag of the claim. With the display
not initialized the call always returns. -/
theorem AddString_true_iff_no_overflow (TFT_font : List Nat) (st : TextState)
    (str : List Nat) (color : Color)
    (hx0 : 0 ≤ st.Text_x) (hx1 : st.Text_x ≤ 20)
    (hy0 : 0 ≤ st.Text_y) (hy16 : st.Text_y ≤ 16)
    (hlen : st.Text_y + str.length < 2147483648) :
    (st.display.TFT_initialized = false →
        ∃ st1 r, AddString TFT_font st str color = .ok (st1, r)) ∧
      ∀ st1 r, AddString TFT_font st str color = .ok (st1, r) →
        (r = true ↔ st1.Text_y ≤ 16) :=
  ⟨AddString_off TFT_font str color st,
    fun st1 r h => AddString_flag TFT_font str color st st1 r h hx0 hx1 hy0 hy16 hlen⟩

/-- Witness for C8: one letter on the empty grid fits, and the result is
true. -/
theorem AddString_true_iff_no_overflow_witness :
    flagOf (AddString blankFont (emptyText false) [97] 0xFFFF) = some true ∧
      ∀ st1 r, AddString blankFont (emptyText false) [97] 0xFFFF = .ok (st1, r) →
        (r = true ↔ st1.Text_y ≤ 16) :=
  ⟨by decide,
    (AddString_true_iff_no_overflow blankFont (emptyText false) [97] 0xFFFF
      (by decide) (by decide) (by decide) (by decide) (by decide)).2⟩

/-- C10, counterexample: 17 line feeds from (0, 0) leave `Text_y = 17`. -/
theorem cursor_after_17_line_feeds :
    cursorAfter blankFont (emptyText true) (List.replicate 17 (lineFeed, 0xFFFF))
        = some (0, 17) ∧ ¬ ((17 : Int) ≤ 16) := by
  decide

/-- C10, as amended: from (0, 0), after every sequence of fewer than 2^31
`AddCharacter` calls that all return, `0 ≤ Text_x ≤ 20`, `0 ≤ Text_y` and
`Text_y` is at most the number of calls; `Text_y ≤ 16` holds exactly when no
call signalled overflow (all returned true). With the display not
initialized every sequence of calls returns. -/
theorem cursor_bounds (TFT_font : List Nat) (st : TextState) (calls : List (Nat × Color))
    (hx : st.Text_x = 0) (hy : st.Text_y = 0) (hlen : calls.length < 2147483648) :
    (st.display.TFT_initialized = false →
        ∃ st1 rs, addCharacters TFT_font st calls = .ok (st1, rs)) ∧
      ∀ st1 rs, addCharacters TFT_font st calls = .ok (st1, rs) →
        0 ≤ st1.Text_x ∧ st1.Text_x ≤ 20 ∧ 0 ≤ st1.Text_y ∧ st1.Text_y ≤ calls.length ∧
          (st1.Text_y ≤ 16 ↔ ∀ r ∈ rs, r = true) := by
  refine ⟨addCharacters_off TFT_font calls st, fun st1 rs h => ?_⟩
  have hall := addCharacters_cursor TFT_font calls st st1 rs h (by omega) (by omega)
    (by omega) (by omega)
  rw [hy] at hall
  refine ⟨hall.1, hall.2.1, hall.2.2.1, by omega, ?_⟩
  rw [hall.2.2.2.2]
  simp

/-- Witness for C10: a letter, a line feed and a letter on the empty grid. -/
theorem cursor_bounds_witness :
    ∃ st1 rs, addCharacters blankFont (emptyText false)
      [(97, 0xFFFF), (lineFeed, 0xFFFF), (98, 0xFFFF)] = .ok (st1, rs) :=
  (cursor_bounds blankFont (emptyText false)
    [(97, 0xFFFF), (lineFeed, 0xFFFF), (98, 0xFFFF)] rfl rfl (by decide)).1 rfl

/-! ## AVR watchdog: lemmas -/

theorem timeoutFlags_smallest_cover (t : Nat) :
    (8192 < t → timeoutFlags t = none) ∧
      (t ≤ 8192 → ∃ k, k ≤ 9 ∧ t ≤ 16 * 2 ^ k ∧ (∀ j, j < k → 16 * 2 ^ j < t) ∧
        timeoutFlags t = some (prescalerEncoding k)) := by
  constructor
  · intro hbig
    unfold timeoutFlags
    repeat rw [if_neg (by omega)]
  · intro hfit
    unfold timeoutFlags
    split_ifs
    · exact ⟨0, by omega, by omega, fun j hj => by omega, rfl⟩
    · exact ⟨1, by omega, by omega, fun j hj => by interval_cases j; omega, rfl⟩
    · exact ⟨2, by omega, by omega, fun j hj => by interval_cases j <;> omega, rfl⟩
    · exact ⟨3, by omega, by omega, fun j hj => by interval_cases j <;> omega, rfl⟩
    · exact ⟨4, by omega, by omega, fun j hj => by interval_cases j <;> omega, rfl⟩
    · exact ⟨5, by omega, by omega, fun j hj => by interval_cases j <;> omega, rfl⟩
    · exact ⟨6, by omega, by omega, fun j hj => by interval_cases j <;> omega, rfl⟩
    · exact ⟨7, by omega, by omega, fun j hj => by interval_cases j <;> omega, rfl⟩
    · exact ⟨8, by omega, by omega, fun j hj => by interval_cases j <;> omega, rfl⟩
    · exact ⟨9, by omega, by omega, fun j hj => by interval_cases j <;> omega, rfl⟩

theorem prescalerEncoding_lt (k : Nat) (hk : k ≤ 9) : prescalerEncoding k < 256 := by
  interval_cases k <;> decide

/-! ## AVR watchdog: results -/

/-- C11: for every `TimeoutMillis`, `wtchdg.Configure` returns an error
exactly when `TimeoutMillis > 8192` and then leaves the receiver unchanged;
otherwise it returns nil and sets `flags` to the WDE bit or-ed with the
prescaler encoding of the smallest `k` in 0..9 with
`TimeoutMillis ≤ 16 * 2^k`. -/
theorem Configure_selects_smallest_cover (WDTCSR_WDE : Nat) (w : wtchdg) (TimeoutMillis : Nat)
    (hWDE : WDTCSR_WDE < 256) :
    ((w.Configure WDTCSR_WDE TimeoutMillis).2 ≠ none ↔ TimeoutMillis > WatchdogMaxTimeout) ∧
      (TimeoutMillis > WatchdogMaxTimeout → (w.Configure WDTCSR_WDE TimeoutMillis).1 = w) ∧
      (TimeoutMillis ≤ WatchdogMaxTimeout →
        (w.Configure WDTCSR_WDE TimeoutMillis).2 = none ∧
        ∃ k, k ≤ 9 ∧ TimeoutMillis ≤ 16 * 2 ^ k ∧ (∀ j, j < k → 16 * 2 ^ j < TimeoutMillis) ∧
          (w.Configure WDTCSR_WDE TimeoutMillis).1.flags
            = WDTCSR_WDE ||| prescalerEncoding k) := by
  have hspec := timeoutFlags_smallest_cover TimeoutMillis
  simp only [WatchdogMaxTimeout]
  by_cases hbig : 8192 < TimeoutMillis
  · have hcfg : w.Configure WDTCSR_WDE TimeoutMillis
        = (w, some "too big timeout; expected under or equal to 8192 ms") := by
      simp only [wtchdg.Configure, hspec.1 hbig]
    rw [hcfg]
    exact ⟨⟨fun _ => hbig, fun _ => by simp⟩, fun _ => rfl, fun hle => absurd hle (by omega)⟩
  · obtain ⟨k, hk, hcover, hmin, hsome⟩ := hspec.2 (by omega)
    have hcfg : w.Configure WDTCSR_WDE TimeoutMillis
        = ({ w with flags := (prescalerEncoding k ||| WDTCSR_WDE) % 256 }, none) := by
      simp only [wtchdg.Configure, hsome]
    rw [hcfg]
    refine ⟨⟨fun h => absurd rfl h, fun h => absurd h hbig⟩, fun h => absurd h hbig,
      fun _ => ⟨rfl, k, hk, hcover, hmin, ?_⟩⟩
    have hlt : prescalerEncoding k ||| WDTCSR_WDE < 256 :=
      Nat.or_lt_two_pow (n := 8) (prescalerEncoding_lt k hk) hWDE
    show (prescalerEncoding k ||| WDTCSR_WDE) % 256 = _
    rw [Nat.mod_eq_of_lt hlt, Nat.lor_comm]

/-- Witness for C11: with the WDE bit `0x08`, 100 ms selects `k = 3`
(128 ms, flags `0x0B`), 5000 ms selects `k = 9` (flags `0x29`), and 8193 ms
is refused with the flags left as they were. -/
theorem Configure_selects_smallest_cover_witness :
    ((wtchdg.Configure 0x08 { flags := 0 } 100).1.flags = 0x0B ∧
        (wtchdg.Configure 0x08 { flags := 0 } 5000).1.flags = 0x29 ∧
        (wtchdg.Configure 0x08 { flags := 0x0B } 8193).1.flags = 0x0B) ∧
      ((wtchdg.Configure 0x08 { flags := 0x0B } 8193).2 ≠ none ↔
        8193 > WatchdogMaxTimeout) :=
  ⟨by decide,
    (Configure_selects_smallest_cover 0x08 { flags := 0x0B } 8193 (by decide)).1⟩

end Sprig
